import Mathlib

/-!
Shallow embedding of the request-building and validation layer of the
`manifold` Go client library (package `manifold`), together with theorems
settling the specification claims about it.

Modelling conventions:
- Go `*T` optional parameters become `Option T`.
- Go `float64` arguments become `Rat`: every float64 value is a rational, and
  the validation layer only ever compares these arguments against small
  constants, so rational comparison is faithful to the float comparison.
- Go `time.Time` instants become `Int` (milliseconds since epoch);
  `time.Now().After(t)` becomes `now > t`, with `now : Int` passed explicitly
  to the embedded function.
- A Go `map[string]string` query or body map becomes an association list
  `List (String × String)` built in program order; a `map[string]interface`
  body becomes `List (String × Value)`.  The claims inspect keys and values,
  never the map iteration order.
- `fmt.Sprintf` with verb d becomes `formatInt`; the verb f rendering becomes
  `formatFloat`.  No claim inspects the rendered numeral text itself.
- A service method that validates and then performs an HTTP call is embedded
  up to the call: it returns `Except String body`, where `Except.ok b` means
  the request with body (or query) `b` is issued and `Except.error e` means
  the method returns the validation error `e` without issuing any request.
- The transport layer (`Client.GET` / `Client.POST`) is embedded over an
  explicit environment `HttpEnv` giving the outcome of URL parsing and of
  `HTTPClient.Do`, so that theorems can quantify over every transport outcome.
-/

namespace Manifold

/-- Rendering of an integer with the Sprintf verb d (decimal). -/
def formatInt (n : Int) : String := toString n

/-- Rendering of a float with the Sprintf verb f. The exact numeral text is
never inspected by any claim; only placement of the value matters. -/
def formatFloat (x : Rat) : String := toString x

/-- Embeds `checkOneOf` from service_user.go: iterate over the allowed
values, return nil (ok) on the first match, otherwise an error. -/
def checkOneOf {α : Type} [DecidableEq α] (value : α) : List α → Except String Unit
  | [] => Except.error "invalid value, not among the allowed values"
  | a :: rest => if value = a then Except.ok () else checkOneOf value rest

/-- Embeds `checkInRange` from service_user.go: error when
`value < min || value > max`, ok otherwise (inclusive bounds). -/
def checkInRange {α : Type} [LinearOrder α] (value min max : α) : Except String Unit :=
  if value < min ∨ value > max then
    Except.error "invalid value, must be within range"
  else
    Except.ok ()

/-- Embeds the `Resolution` record from types.go (fields Answer, Pct). -/
structure Resolution where
  answer : Int
  pct : Int
deriving DecidableEq, Repr

/-- Values that appear in a Go `map[string]interface` request body in this
library: strings, ints, floats, bools, string slices and resolution slices. -/
inductive Value where
  | s : String → Value
  | i : Int → Value
  | f : Rat → Value
  | b : Bool → Value
  | strList : List String → Value
  | resList : List Resolution → Value
deriving DecidableEq, Repr

/-- Embeds `BetService.Create` from types.go up to the POST to /bet.
`now` is the instant observed by `time.Now()` inside the call.
`Except.ok body` means the POST is issued with this body map;
`Except.error e` means the method returns before any POST. -/
def BetService.Create (now : Int) (amount : Rat) (contractID : String)
    (outcome : Option String) (limitProb : Option Rat)
    (expiresAt : Option Int) (dryRun : Option Bool) :
    Except String (List (String × String)) := do
  let body0 := [("amount", formatFloat amount), ("contractId", contractID)]
  let body1 ← match outcome with
    | none => pure body0
    | some oc =>
      match checkOneOf oc ["YES", "NO"] with
      | Except.ok _ => pure (body0 ++ [("outcome", oc)])
      | Except.error e => Except.error e
  let body2 ← match limitProb with
    | none => pure body1
    | some p =>
      match checkInRange p 0 1 with
      | Except.ok _ => pure (body1 ++ [("limitProb", formatFloat p)])
      | Except.error e => Except.error e
  let body3 ← match expiresAt with
    | none => pure body2
    | some t =>
      if limitProb = none then
        Except.error "only limit orders can have an expiresAt"
      else if now > t then
        Except.error "limit order cannot expire in the past"
      else
        pure (body2 ++ [("expiresAt", formatInt t)])
  let body4 := match dryRun with
    | none => body3
    | some d => body3 ++ [("dryRun", if d then "true" else "false")]
  pure body4

/-- Allowed sort values for MarketService.Search (package-level var). -/
def allowedMarketSearchSort : List String :=
  ["newest", "score", "daily-score", "freshness-score", "24-hour-vol", "most-popular",
   "liquidity", "subsidy", "last-updated", "close-date", "resolve-date", "random",
   "bounty-amount", "prob-descending", "prob-ascending"]

/-- Allowed filter values for MarketService.Search (package-level var). -/
def allowedMarketSearchFilter : List String :=
  ["all", "open", "closed", "resolved", "closing-this-month", "closing-next-month"]

/-- Allowed contract types for MarketService.Search (package-level var). -/
def allowedMarketSearchContractType : List String :=
  ["ALL", "BINARY", "MULTIPLE_CHOICE", "FREE-RESPONSE", "PSEUDO-NUMERIC",
   "BOUNTIED_QUESTION", "STONK", "POLL", "NUMBER"]

/-- Embeds `MarketService.Search` up to the GET of /search-markets.
The first statement of the Go body is literally `params[term] = term`:
the search term itself is used as the map key. `Except.ok q` means the GET
is issued with query map `q`. -/
def MarketService.Search (term : String) (sort : Option String) (filter : Option String)
    (contractType : Option String) (topicSlug : Option String) (creatorID : Option String)
    (limit : Option Int) (offset : Option Int) :
    Except String (List (String × String)) := do
  let p0 := [(term, term)]
  let p1 ← match sort with
    | none => pure p0
    | some v =>
      match checkOneOf v allowedMarketSearchSort with
      | Except.ok _ => pure (p0 ++ [("sort", v)])
      | Except.error e => Except.error e
  let p2 ← match filter with
    | none => pure p1
    | some v =>
      match checkOneOf v allowedMarketSearchFilter with
      | Except.ok _ => pure (p1 ++ [("filter", v)])
      | Except.error e => Except.error e
  let p3 ← match contractType with
    | none => pure p2
    | some v =>
      match checkOneOf v allowedMarketSearchContractType with
      | Except.ok _ => pure (p2 ++ [("contractType", v)])
      | Except.error e => Except.error e
  let p4 := match topicSlug with
    | none => p3
    | some v => p3 ++ [("topicSlug", v)]
  let p5 := match creatorID with
    | none => p4
    | some v => p4 ++ [("creatorId", v)]
  let p6 ← match limit with
    | none => pure p5
    | some l =>
      match checkInRange l 0 1000 with
      | Except.ok _ => pure (p5 ++ [("limit", formatInt l)])
      | Except.error e => Except.error e
  let p7 ← match offset with
    | none => pure p6
    | some o =>
      if o < 0 then Except.error "invalid offset, must be greater than 0"
      else pure (p6 ++ [("offset", formatInt o)])
  pure p7

/-- Embeds `CommentService.Comments` up to the GET of /comments.
`Except.ok q` means the GET is issued with query map `q`. -/
def CommentService.Comments (contractID : Option String) (contractSlug : Option String)
    (limit : Option Int) (offset : Option Int) (userID : Option String) :
    Except String (List (String × String)) := do
  let p0 : List (String × String) := []
  let p1 := match contractID with
    | none => p0
    | some v => p0 ++ [("contractId", v)]
  let p2 := match contractSlug with
    | none => p1
    | some v => p1 ++ [("contractSlug", v)]
  let p3 ← match limit with
    | none => pure p2
    | some l =>
      match checkInRange l 0 1000 with
      | Except.ok _ => pure (p2 ++ [("limit", formatInt l)])
      | Except.error e => Except.error e
  let p4 ← match offset with
    | none => pure p3
    | some o =>
      if o < 0 then Except.error "invalid offset, must be greater than 0"
      else pure (p3 ++ [("offset", formatInt o)])
  let p5 := match userID with
    | none => p4
    | some v => p4 ++ [("userId", v)]
  pure p5

/-- Embeds `MarketService.CreatePseudoNumeric` up to the POST of /market.
`now` is the instant observed by `time.Now()` inside the call. -/
def MarketService.CreatePseudoNumeric (now : Int) (question : String)
    (min max initialValue : Int) (isLogScale : Bool) (description : Option String)
    (closeTime : Option Int) (visibility : Option String) (extraLiquidity : Option Int) :
    Except String (List (String × Value)) := do
  let _ ← match checkInRange initialValue (min + 1) (max - 1) with
    | Except.ok _ => pure ()
    | Except.error e => Except.error e
  let p0 := [("outcomeType", Value.s "PSEUDO_NUMERIC"), ("question", Value.s question),
             ("min", Value.i min), ("max", Value.i max),
             ("initialValue", Value.i initialValue), ("isLogScale", Value.b isLogScale)]
  let p1 := match description with
    | none => p0
    | some d => p0 ++ [("description", Value.s d)]
  let p2 ← match closeTime with
    | none => pure p1
    | some t =>
      if now > t then Except.error "closeTime cannot be in the past"
      else pure (p1 ++ [("closeTime", Value.i t)])
  let p3 ← match visibility with
    | none => pure p2
    | some v =>
      match checkOneOf v ["public", "unlisted"] with
      | Except.ok _ => pure (p2 ++ [("visibility", Value.s v)])
      | Except.error e => Except.error e
  let p4 := match extraLiquidity with
    | none => p3
    | some x => p3 ++ [("extraLiquidity", Value.i x)]
  pure p4

/-- Embeds `MarketService.AddLiquidity` up to the POST of
/market/id/add-liquidity. The source guard is `amount < 0`. -/
def MarketService.AddLiquidity (id : String) (amount : Rat) :
    Except String (List (String × String)) :=
  if amount < 0 then
    Except.error "invalid value, must be greater than 0"
  else
    Except.ok [("amount", formatFloat amount)]

/-- Embeds `MarketService.AddBounty` up to the POST of
/market/id/add-bounty. The source guard is `amount < 0`. -/
def MarketService.AddBounty (id : String) (amount : Rat) :
    Except String (List (String × String)) :=
  if amount < 0 then
    Except.error "invalid value, must be greater than 0"
  else
    Except.ok [("amount", formatFloat amount)]

/-- Embeds `MarketService.AwardBounty` up to the POST of
/market/id/award-bounty. The source guard is `amount < 0`. -/
def MarketService.AwardBounty (id : String) (amount : Rat) (commentID : String) :
    Except String (List (String × String)) :=
  if amount < 0 then
    Except.error "invalid value, must be greater than 0"
  else
    Except.ok [("amount", formatFloat amount), ("commentId", commentID)]

/-- Embeds `MarketService.ResolveBinary` up to the POST of
/market/id/resolve. probabilityInt is range-checked only under
`outcome == "MKT" && probabilityInt != nil`, and a non-nil probabilityInt
is always copied into the parameters. -/
def MarketService.ResolveBinary (id : String) (outcome : String)
    (probabilityInt : Option Int) : Except String (List (String × Value)) := do
  let _ ← match checkOneOf outcome ["YES", "NO", "MKT", "CANCEL"] with
    | Except.ok _ => pure ()
    | Except.error e => Except.error e
  let _ ← if outcome = "MKT" then
      match probabilityInt with
      | none => pure ()
      | some p =>
        match checkInRange p 0 100 with
        | Except.ok _ => pure ()
        | Except.error e => Except.error e
    else pure ()
  let params := [("outcome", Value.s outcome)]
  let params2 := match probabilityInt with
    | none => params
    | some p => params ++ [("probabilityInt", Value.i p)]
  pure params2

/-- Shared tail of `MarketService.ResolveFreeResponse`: assemble the outcome
parameter, and under `outcome == "MKT" && len(resolutions) > 0` check that
the percentages sum to 100 and include the resolutions. A nil slice
(`Option.none`) has length 0, like Go len(nil). -/
def MarketService.ResolveFreeResponseBody (outcome : String)
    (resolutions : Option (List Resolution)) :
    Except String (List (String × Value)) :=
  let rs := resolutions.getD []
  let params := [("outcome", Value.s outcome)]
  if outcome = "MKT" ∧ 0 < rs.length then
    if (rs.map Resolution.pct).sum ≠ 100 then
      Except.error "total percentages of resolutions must add up to 100"
    else
      Except.ok (params ++ [("resolutions", Value.resList rs)])
  else
    Except.ok params

/-- Embeds `MarketService.ResolveFreeResponse` up to the POST of
/market/id/resolve. Faithful to the source nesting: the early error return
sits inside the branch where `checkOneOf outcome` already failed, where its
own condition `outcome == "MKT"` cannot hold, so the outcome check never
surfaces an error. -/
def MarketService.ResolveFreeResponse (id : String) (outcome : String)
    (resolutions : Option (List Resolution)) :
    Except String (List (String × Value)) :=
  match checkOneOf outcome ["MKT", "CANCEL"] with
  | Except.error _ =>
    if outcome = "MKT" ∧ resolutions = none then
      Except.error "outcome cannot be a specific answer without resolutions"
    else
      MarketService.ResolveFreeResponseBody outcome resolutions
  | Except.ok _ => MarketService.ResolveFreeResponseBody outcome resolutions

/-- Embeds the relevant configuration of the Go `Client` record. -/
structure Client where
  BaseURL : String
  APIKey : String

/-- An HTTP response as delivered to the client: status code and raw body. -/
structure HttpResponse where
  statusCode : Nat
  body : String
deriving DecidableEq, Repr

/-- Outcome of executing a request: a network-level failure, or a completed
response (of any status code, body fully read). -/
inductive TransportResult where
  | netError : String → TransportResult
  | response : HttpResponse → TransportResult
deriving DecidableEq, Repr

/-- An HTTP request as assembled by Client.GET / Client.POST. The POST body
is kept structured; JSON marshalling of the string-keyed maps this library
sends is total, so no marshal-error path exists for them. -/
structure Request where
  method : String
  url : String
  query : List (String × String)
  headers : List (String × String)
  body : Option (List (String × Value))
deriving DecidableEq, Repr

/-- Environment for the transport layer: whether `http.NewRequest` accepts a
URL, and the outcome of `HTTPClient.Do` on a request. -/
structure HttpEnv where
  urlValid : String → Bool
  exec : Request → TransportResult

/-- Authorization header assembly shared by GET and POST: attached only when
an API key is configured. -/
def authHeaders (c : Client) : List (String × String) :=
  if c.APIKey ≠ "" then [("Authorization", "Key " ++ c.APIKey)] else []

/-- The request Client.GET assembles for an endpoint and query map. -/
def Client.GETRequest (c : Client) (endpoint : String)
    (params : List (String × String)) : Request :=
  { method := "GET", url := c.BaseURL ++ endpoint, query := params,
    headers := authHeaders c, body := none }

/-- Embeds `Client.GET` from client.go: build the request, execute it, and
return the raw response body. The status code is never inspected. -/
def Client.GET (env : HttpEnv) (c : Client) (endpoint : String)
    (params : List (String × String)) : Except String String :=
  if env.urlValid (c.BaseURL ++ endpoint) = false then
    Except.error "invalid request URL"
  else
    match env.exec (Client.GETRequest c endpoint params) with
    | TransportResult.netError e => Except.error e
    | TransportResult.response r => Except.ok r.body

/-- The request Client.POST assembles for an endpoint and JSON body. -/
def Client.POSTRequest (c : Client) (endpoint : String)
    (body : Option (List (String × Value))) : Request :=
  { method := "POST", url := c.BaseURL ++ endpoint, query := [],
    headers := ("Content-Type", "application/json") :: authHeaders c,
    body := body }

/-- Embeds `Client.POST` from client.go: serialize the body, build the
request, execute it, and return the raw response body. The status code is
never inspected. -/
def Client.POST (env : HttpEnv) (c : Client) (endpoint : String)
    (body : Option (List (String × Value))) : Except String String :=
  if env.urlValid (c.BaseURL ++ endpoint) = false then
    Except.error "invalid request URL"
  else
    match env.exec (Client.POSTRequest c endpoint body) with
    | TransportResult.netError e => Except.error e
    | TransportResult.response r => Except.ok r.body

/-- The body map `ManaService.Managram` assembles: toIds and amount always,
message only when supplied. -/
def ManaService.ManagramBody (toIDs : List String) (amount : Rat)
    (message : Option String) : List (String × Value) :=
  let body := [("toIds", Value.strList toIDs), ("amount", Value.f amount)]
  match message with
  | none => body
  | some m => body ++ [("message", Value.s m)]

/-- Embeds `ManaService.Managram` from service_mana.go: assemble the body
with no validation, POST it to /managram, and propagate only a POST
failure. -/
def ManaService.Managram (env : HttpEnv) (c : Client) (toIDs : List String)
    (amount : Rat) (message : Option String) : Except String Unit :=
  match Client.POST env c "/managram" (some (ManaService.ManagramBody toIDs amount message)) with
  | Except.error e => Except.error e
  | Except.ok _ => Except.ok ()

/-- True when the embedded call issues its request (Go returns no validation
or transport error at this point). -/
def isOk {ε α : Type} : Except ε α → Bool
  | Except.ok _ => true
  | Except.error _ => false

/-- True when the embedded call returns an error instead of proceeding. -/
def isError {ε α : Type} (x : Except ε α) : Bool := !(isOk x)

/-- Lookup of a key in an assembled query or body map. -/
def lookupKey {β : Type} (k : String) : List (String × β) → Option β
  | [] => none
  | (a, b) :: rest => if k = a then some b else lookupKey k rest

/-- A concrete transport environment in which every URL parses and every
request completes with an HTTP 404 response carrying a JSON error body. -/
def notFoundEnv : HttpEnv :=
  { urlValid := fun _ => true,
    exec := fun _ => TransportResult.response
      { statusCode := 404, body := "message error not found" } }

theorem isOk_ok {ε α : Type} (a : α) : isOk (Except.ok a : Except ε α) = true := rfl

theorem isOk_pure {ε α : Type} (a : α) : isOk (pure a : Except ε α) = true := rfl

theorem isError_pure {ε α : Type} (a : α) : isError (pure a : Except ε α) = false := rfl

theorem isOk_error {ε α : Type} (e : ε) : isOk (Except.error e : Except ε α) = false := rfl

theorem isError_error {ε α : Type} (e : ε) : isError (Except.error e : Except ε α) = true := rfl

theorem isError_ok {ε α : Type} (a : α) : isError (Except.ok a : Except ε α) = false := rfl

theorem except_ok_bind {ε α β : Type} (a : α) (f : α → Except ε β) :
    ((Except.ok a : Except ε α) >>= f) = f a := rfl

theorem except_error_bind {ε α β : Type} (e : ε) (f : α → Except ε β) :
    ((Except.error e : Except ε α) >>= f) = Except.error e := rfl

theorem except_pure_bind {ε α β : Type} (a : α) (f : α → Except ε β) :
    ((pure a : Except ε α) >>= f) = f a := rfl

/-- checkOneOf succeeds exactly on members of the allowed list. -/
theorem checkOneOf_ok_iff {α : Type} [DecidableEq α] (value : α) (allowed : List α) :
    checkOneOf value allowed = Except.ok () ↔ value ∈ allowed := by
  induction allowed with
  | nil => simp [checkOneOf]
  | cons a rest ih =>
    by_cases h : value = a
    · subst h
      simp [checkOneOf]
    · simp [checkOneOf, h, ih]

/-- checkInRange succeeds exactly on the closed interval between min and max. -/
theorem checkInRange_ok_iff {α : Type} [LinearOrder α] (value lo hi : α) :
    checkInRange value lo hi = Except.ok () ↔ lo ≤ value ∧ value ≤ hi := by
  rw [checkInRange]
  by_cases h : value < lo ∨ value > hi
  · rw [if_pos h]
    constructor
    · intro hc
      exact Except.noConfusion hc
    · intro hb
      rcases h with h | h
      · exact absurd hb.1 (not_le.mpr h)
      · exact absurd hb.2 (not_le.mpr h)
  · rw [if_neg h]
    push_neg at h
    exact iff_of_true rfl h

/-- C3: the claim states every supplied parameter is entered under its fixed
wire-format field name, and in particular MarketService.Search places the
search term under the key "term". The source line is `params[term] = term`,
so the key is the runtime value of the term itself: searching for "foo"
sends the query key "foo" and searching for "bar" sends the key "bar", and
neither query map contains the key "term" at all. -/
theorem Search_term_key_bug :
    MarketService.Search "foo" none none none none none none none =
      Except.ok [("foo", "foo")] ∧
    MarketService.Search "bar" none none none none none none none =
      Except.ok [("bar", "bar")] ∧
    lookupKey "term" [("foo", "foo")] = none ∧
    lookupKey "term" [("bar", "bar")] = none := by
  refine ⟨rfl, rfl, rfl, rfl⟩

/-- C8: the claim states AddLiquidity, AddBounty and AwardBounty reject
every amount less than or equal to zero before any POST. The source guard
is `amount < 0`, so amount = 0 passes validation and the POST is issued;
only strictly negative amounts are rejected. -/
theorem Amount_zero_not_rejected :
    isOk (MarketService.AddLiquidity "m" 0) = true ∧
    isOk (MarketService.AddBounty "m" 0) = true ∧
    isOk (MarketService.AwardBounty "m" 0 "c") = true ∧
    isError (MarketService.AddLiquidity "m" (-1)) = true ∧
    isError (MarketService.AddBounty "m" (-1)) = true ∧
    isError (MarketService.AwardBounty "m" (-1) "c") = true := by
  decide

/-- C1 counterexample: with the call-time instant now = 0 and
expiresAt = 0 (not strictly in the future, since 0 < 0 fails), a bet with
limitProb set is nevertheless accepted and the POST body is assembled,
contradicting the claim that such a call returns a validation error. -/
theorem BetCreate_expiresAtNow_accepted :
    ¬ ((0 : Int) < 0) ∧
    isOk (BetService.Create 0 1 "c" none (some 0) (some 0) none) = true := by
  exact ⟨by decide, rfl⟩

/-- C2 counterexample: with outcome "MKT" and a supplied empty resolutions
slice, the percentages sum to 0, not 100, yet the call succeeds and the
request body is assembled without any resolutions entry, contradicting the
claim that a sum different from 100 yields a validation error. -/
theorem ResolveFreeResponse_empty_accepted :
    (([] : List Resolution).map Resolution.pct).sum ≠ 100 ∧
    MarketService.ResolveFreeResponse "m" "MKT" (some []) =
      Except.ok [("outcome", Value.s "MKT")] := by
  exact ⟨by decide, rfl⟩

/-- C1 (amended): for every call to BetService.Create, if expiresAt is
non-nil and limitProb is nil the call returns a validation error before any
POST, regardless of amount, contractID, outcome and dryRun; and if expiresAt
is non-nil and limitProb is non-nil but expiresAt is strictly earlier than
the current time of the call, the call likewise returns a validation error
before any POST. (An expiresAt equal to the current instant is not
rejected: the source test is `time.Now().After(*expiresAt)`.) -/
theorem BetCreate_expiry_validation (now : Int) (amount : Rat) (contractID : String)
    (outcome : Option String) (t : Int) (dryRun : Option Bool) :
    isError (BetService.Create now amount contractID outcome none (some t) dryRun) = true ∧
    (∀ p : Rat, t < now →
      isError (BetService.Create now amount contractID outcome (some p) (some t) dryRun) = true) := by
  constructor
  · cases outcome with
    | none =>
      simp [BetService.Create, except_pure_bind, except_error_bind, isError, isOk]
    | some oc =>
      cases h : checkOneOf oc ["YES", "NO"] with
      | ok u =>
        simp [BetService.Create, h, except_pure_bind, except_error_bind, isError, isOk]
      | error e =>
        simp [BetService.Create, h, except_pure_bind, except_error_bind, isError, isOk]
  · intro p ht
    have hgt : now > t := ht
    cases outcome with
    | none =>
      cases h2 : checkInRange p 0 1 with
      | ok u =>
        simp [BetService.Create, h2, hgt, except_pure_bind, except_error_bind, isError, isOk]
      | error e =>
        simp [BetService.Create, h2, except_pure_bind, except_error_bind, isError, isOk]
    | some oc =>
      cases h : checkOneOf oc ["YES", "NO"] with
      | ok u =>
        cases h2 : checkInRange p 0 1 with
        | ok u2 =>
          simp [BetService.Create, h, h2, hgt, except_pure_bind, except_error_bind, isError, isOk]
        | error e =>
          simp [BetService.Create, h, h2, except_pure_bind, except_error_bind, isError, isOk]
      | error e =>
        simp [BetService.Create, h, except_pure_bind, except_error_bind, isError, isOk]

/-- C1 witness: the amended theorem applied at now = 5, amount = 1,
contract "c", no outcome, expiresAt = 3 (strictly in the past), with
limitProb absent for the first conjunct and limitProb = 0 for the second. -/
theorem BetCreate_expiry_validation_witness :
    isError (BetService.Create 5 1 "c" none none (some 3) none) = true ∧
    isError (BetService.Create 5 1 "c" none (some 0) (some 3) none) = true := by
  have h := BetCreate_expiry_validation 5 1 "c" none 3 none
  exact ⟨h.1, h.2 0 (by decide)⟩

/-- C2 (amended): for every call to MarketService.ResolveFreeResponse with
outcome "MKT" and a nonempty resolutions slice: if the Pct values do not sum
to exactly 100 the call fails with a validation error before any POST, and
if they sum to exactly 100 client-side validation passes and the request
body is assembled with the resolutions included. (With a nil or empty
resolutions slice the sum check is skipped: the source guards it with
`len(resolutions) > 0`.) -/
theorem ResolveFreeResponse_mkt_sum (id : String) (rs : List Resolution) (h : rs ≠ []) :
    ((rs.map Resolution.pct).sum ≠ 100 →
      isError (MarketService.ResolveFreeResponse id "MKT" (some rs)) = true) ∧
    ((rs.map Resolution.pct).sum = 100 →
      MarketService.ResolveFreeResponse id "MKT" (some rs) =
        Except.ok [("outcome", Value.s "MKT"), ("resolutions", Value.resList rs)]) := by
  have hred : MarketService.ResolveFreeResponse id "MKT" (some rs) =
      MarketService.ResolveFreeResponseBody "MKT" (some rs) := rfl
  rw [hred, MarketService.ResolveFreeResponseBody]
  simp only [Option.getD_some]
  rw [if_pos ⟨trivial, List.length_pos.mpr h⟩]
  constructor
  · intro hsum
    rw [if_pos hsum]
    rfl
  · intro hsum
    rw [if_neg (by simp [hsum])]
    rfl

/-- C2 witness: the amended theorem applied to the single-resolution slices
with Pct 99 (rejected) and Pct 100 (accepted, resolutions included). -/
theorem ResolveFreeResponse_mkt_sum_witness :
    isError (MarketService.ResolveFreeResponse "m" "MKT" (some [⟨0, 99⟩])) = true ∧
    MarketService.ResolveFreeResponse "m" "MKT" (some [⟨0, 100⟩]) =
      Except.ok [("outcome", Value.s "MKT"),
                 ("resolutions", Value.resList [⟨0, 100⟩])] := by
  exact ⟨(ResolveFreeResponse_mkt_sum "m" [⟨0, 99⟩] (by decide)).1 (by decide),
         (ResolveFreeResponse_mkt_sum "m" [⟨0, 100⟩] (by decide)).2 (by decide)⟩

/-- C4: the claim states every endpoint method returns an enumeration
validation error, without issuing a request, for a value outside the allowed
set, and cites MarketService.ResolveFreeResponse. The primitive does behave
as claimed: checkOneOf succeeds exactly on members of the allowed set. But
in ResolveFreeResponse the early error return is nested inside the branch
where checkOneOf already failed while its own condition requires
outcome = "MKT", which lies inside the allowed set, so the check never
surfaces: outcome "YES" is rejected by checkOneOf yet the POST body is
assembled and the request issued. -/
theorem ResolveFreeResponse_outcome_not_enforced :
    (∀ (v : String) (allowed : List String),
        checkOneOf v allowed = Except.ok () ↔ v ∈ allowed) ∧
    isError (checkOneOf "YES" ["MKT", "CANCEL"]) = true ∧
    MarketService.ResolveFreeResponse "m" "YES" none =
      Except.ok [("outcome", Value.s "YES")] := by
  exact ⟨fun v allowed => checkOneOf_ok_iff v allowed, rfl, rfl⟩

/-- C5: Client.GET and Client.POST return an error only on network-level
failure (malformed URL or failed HTTP execution); for any completed
response, of any status code, they return the raw response body with no
error. The response quantifier r ranges over every status code, so the
status is never inspected. -/
theorem Client_transport_transparent (env : HttpEnv) (c : Client) (endpoint : String)
    (params : List (String × String)) (body : Option (List (String × Value))) :
    (env.urlValid (c.BaseURL ++ endpoint) = false →
      Client.GET env c endpoint params = Except.error "invalid request URL" ∧
      Client.POST env c endpoint body = Except.error "invalid request URL") ∧
    (∀ e, env.urlValid (c.BaseURL ++ endpoint) = true →
      env.exec (Client.GETRequest c endpoint params) = TransportResult.netError e →
      Client.GET env c endpoint params = Except.error e) ∧
    (∀ r, env.urlValid (c.BaseURL ++ endpoint) = true →
      env.exec (Client.GETRequest c endpoint params) = TransportResult.response r →
      Client.GET env c endpoint params = Except.ok r.body) ∧
    (∀ e, env.urlValid (c.BaseURL ++ endpoint) = true →
      env.exec (Client.POSTRequest c endpoint body) = TransportResult.netError e →
      Client.POST env c endpoint body = Except.error e) ∧
    (∀ r, env.urlValid (c.BaseURL ++ endpoint) = true →
      env.exec (Client.POSTRequest c endpoint body) = TransportResult.response r →
      Client.POST env c endpoint body = Except.ok r.body) := by
  refine ⟨fun hv => ⟨?_, ?_⟩, fun e hv hx => ?_, fun r hv hx => ?_,
          fun e hv hx => ?_, fun r hv hx => ?_⟩ <;>
    simp [Client.GET, Client.POST, *]

/-- C5 witness: in the environment where every request completes with an
HTTP 404 response, GET and POST both return the 404 JSON error body as
bytes with no error. -/
theorem Client_transport_transparent_witness :
    Client.GET notFoundEnv ⟨"https://api.manifold.markets/v0", "key"⟩ "/me" [] =
      Except.ok "message error not found" ∧
    Client.POST notFoundEnv ⟨"https://api.manifold.markets/v0", "key"⟩ "/bet" none =
      Except.ok "message error not found" := by
  have hg := Client_transport_transparent notFoundEnv
    ⟨"https://api.manifold.markets/v0", "key"⟩ "/me" [] none
  have hp := Client_transport_transparent notFoundEnv
    ⟨"https://api.manifold.markets/v0", "key"⟩ "/bet" [] none
  exact ⟨hg.2.2.1 { statusCode := 404, body := "message error not found" } rfl rfl,
         hp.2.2.2.2 { statusCode := 404, body := "message error not found" } rfl rfl⟩

/-- C6: checkInRange accepts exactly the closed interval between min and
max; for CommentService.Comments a supplied limit passes validation exactly
when it lies in the closed interval from 0 to 1000 and a supplied offset
passes exactly when it is nonnegative, and rejected values produce an error
before any request is issued. -/
theorem Comments_pagination_bounds :
    (∀ value lo hi : Int, checkInRange value lo hi = Except.ok () ↔ lo ≤ value ∧ value ≤ hi) ∧
    (∀ (contractID contractSlug userID : Option String) (l : Int),
      isOk (CommentService.Comments contractID contractSlug (some l) none userID) = true ↔
        0 ≤ l ∧ l ≤ 1000) ∧
    (∀ (contractID contractSlug userID : Option String) (o : Int),
      isOk (CommentService.Comments contractID contractSlug none (some o) userID) = true ↔
        0 ≤ o) := by
  refine ⟨fun value lo hi => checkInRange_ok_iff value lo hi, ?_, ?_⟩
  · intro contractID contractSlug userID l
    cases h : checkInRange l 0 1000 with
    | ok u =>
      cases u
      have hb := (checkInRange_ok_iff l 0 1000).mp h
      simp [CommentService.Comments, h, except_ok_bind, except_pure_bind, isOk_pure]
      omega
    | error e =>
      have hb : ¬ (0 ≤ l ∧ l ≤ 1000) := by
        intro hc
        rw [(checkInRange_ok_iff l 0 1000).mpr hc] at h
        exact Except.noConfusion h
      simp [CommentService.Comments, h, except_error_bind, isOk_error]
      omega
  · intro contractID contractSlug userID o
    by_cases ho : o < 0
    · have hb : ¬ (0 ≤ o) := not_le.mpr ho
      simp [CommentService.Comments, ho, except_error_bind, except_pure_bind,
            isOk_error, isOk_pure]
    · have hb : 0 ≤ o := not_lt.mp ho
      simp [CommentService.Comments, ho, except_error_bind, except_pure_bind,
            isOk_error, isOk_pure]
      omega

/-- C7: MarketService.CreatePseudoNumeric accepts initialValue exactly when
it lies strictly between min and max, and any initialValue outside that open
interval is rejected before any POST regardless of the optional arguments;
over the integers the accepted set is the closed interval from min plus one
to max minus one, which the source encodes as
checkInRange(initialValue, min+1, max-1). -/
theorem CreatePseudoNumeric_strict_bounds (now : Int) (question : String)
    (min max initialValue : Int) (isLogScale : Bool) :
    (isOk (MarketService.CreatePseudoNumeric now question min max initialValue isLogScale
        none none none none) = true ↔ min < initialValue ∧ initialValue < max) ∧
    (∀ (description : Option String) (closeTime : Option Int) (visibility : Option String)
        (extraLiquidity : Option Int),
      (initialValue ≤ min ∨ max ≤ initialValue) →
      isError (MarketService.CreatePseudoNumeric now question min max initialValue isLogScale
          description closeTime visibility extraLiquidity) = true) := by
  constructor
  · cases h : checkInRange initialValue (min + 1) (max - 1) with
    | ok u =>
      cases u
      have hb := (checkInRange_ok_iff initialValue (min + 1) (max - 1)).mp h
      simp [MarketService.CreatePseudoNumeric, h, except_ok_bind, except_pure_bind, isOk_pure]
      omega
    | error e =>
      have hb : ¬ (min < initialValue ∧ initialValue < max) := by
        intro hc
        have hok : checkInRange initialValue (min + 1) (max - 1) = Except.ok () :=
          (checkInRange_ok_iff initialValue (min + 1) (max - 1)).mpr (by omega)
        rw [hok] at h
        exact Except.noConfusion h
      simp [MarketService.CreatePseudoNumeric, h, except_error_bind, isOk_error]
      omega
  · intro description closeTime visibility extraLiquidity hout
    cases h : checkInRange initialValue (min + 1) (max - 1) with
    | ok u =>
      have hb := (checkInRange_ok_iff initialValue (min + 1) (max - 1)).mp h
      exfalso
      rcases hout with h3 | h3 <;> omega
    | error e =>
      simp [MarketService.CreatePseudoNumeric, h, except_error_bind, isError_error]

/-- C7 witness: with min = 0 and max = 10, initialValue = 0 is rejected and
initialValue = 5 is accepted. -/
theorem CreatePseudoNumeric_strict_bounds_witness :
    isOk (MarketService.CreatePseudoNumeric 0 "q" 0 10 5 false none none none none) = true ∧
    isError (MarketService.CreatePseudoNumeric 0 "q" 0 10 0 false none none none none) = true := by
  exact ⟨(CreatePseudoNumeric_strict_bounds 0 "q" 0 10 5 false).1.mpr (by decide),
         (CreatePseudoNumeric_strict_bounds 0 "q" 0 10 0 false).2 none none none none (by decide)⟩

/-- C9: MarketService.ResolveBinary range-checks probabilityInt only when
outcome is "MKT": for outcome "YES", "NO" or "CANCEL" every non-nil
probabilityInt, including negative values and values above 100, passes
validation and is included in the request parameters, while under "MKT" a
value outside 0..100 is rejected. -/
theorem ResolveBinary_prob_checked_only_for_mkt (id : String) (p : Int) :
    (∀ outcome, outcome ∈ (["YES", "NO", "CANCEL"] : List String) →
      MarketService.ResolveBinary id outcome (some p) =
        Except.ok [("outcome", Value.s outcome), ("probabilityInt", Value.i p)]) ∧
    ((p < 0 ∨ 100 < p) →
      isError (MarketService.ResolveBinary id "MKT" (some p)) = true) := by
  constructor
  · intro outcome hmem
    simp only [List.mem_cons, List.not_mem_nil, or_false] at hmem
    rcases hmem with rfl | rfl | rfl <;> rfl
  · intro hp
    have h : checkInRange p 0 100 =
        Except.error "invalid value, must be within range" := by
      rw [checkInRange, if_pos hp]
    have hc : checkOneOf "MKT" ["YES", "NO", "MKT", "CANCEL"] = Except.ok () := rfl
    simp [MarketService.ResolveBinary, hc, h, except_error_bind, except_ok_bind,
          isError_error]

/-- C9 witness: probabilityInt = 150 is accepted and forwarded under outcome
"YES" but rejected under outcome "MKT". -/
theorem ResolveBinary_prob_checked_only_for_mkt_witness :
    MarketService.ResolveBinary "m" "YES" (some 150) =
      Except.ok [("outcome", Value.s "YES"), ("probabilityInt", Value.i 150)] ∧
    isError (MarketService.ResolveBinary "m" "MKT" (some 150)) = true := by
  exact ⟨(ResolveBinary_prob_checked_only_for_mkt "m" 150).1 "YES" (by simp),
         (ResolveBinary_prob_checked_only_for_mkt "m" 150).2 (by decide)⟩

/-- C10: ManaService.Managram performs no client-side validation: for every
toIDs slice (including the empty slice) and every amount (including zero and
negative values) the body is assembled with toIds and amount entries and the
POST is issued, and the call errs exactly when the POST itself fails. -/
theorem Managram_no_validation (env : HttpEnv) (c : Client) (toIDs : List String)
    (amount : Rat) (message : Option String) :
    (isOk (ManaService.Managram env c toIDs amount message) =
      isOk (Client.POST env c "/managram"
        (some (ManaService.ManagramBody toIDs amount message)))) ∧
    lookupKey "toIds" (ManaService.ManagramBody toIDs amount message) =
      some (Value.strList toIDs) ∧
    lookupKey "amount" (ManaService.ManagramBody toIDs amount message) =
      some (Value.f amount) := by
  refine ⟨?_, ?_, ?_⟩
  · cases h : Client.POST env c "/managram"
        (some (ManaService.ManagramBody toIDs amount message)) with
    | ok v => simp [ManaService.Managram, h, isOk]
    | error e => simp [ManaService.Managram, h, isOk]
  · cases message <;> rfl
  · cases message <;> rfl

end Manifold
